import Mathlib

set_option maxRecDepth 100000

/-!
Verification of the daily-note lifecycle engine of the `note-templater`
repository (`mknote/cli.py`).  Python strings are modelled as `List Char`
(`Str` below); a project directory is an association list from file names to
file contents; the filesystem state of a single project is
`Option (List (Str × Str))` (`none` = the directory does not exist).  Every
definition is translated from the Python source; the doc comment of each
definition names the function it embeds.
-/

/-- A Python string, modelled as its list of characters. -/
abbrev Str := List Char

/-- `isPrefixS pre s` models Python `s.startswith(pre)`. -/
def isPrefixS : Str → Str → Bool
  | [], _ => true
  | _ :: _, [] => false
  | a :: as, b :: bs => a == b && isPrefixS as bs

/-- `strContains s sub` models Python `sub in s` (substring containment). -/
def strContains : Str → Str → Bool
  | [], sub => isPrefixS sub []
  | s@(_ :: cs), sub => isPrefixS sub s || strContains cs sub

/-- Python `content.split('\n')`: the result is never empty, and splitting the
empty string yields one empty part. -/
def splitNl : Str → List Str
  | [] => [[]]
  | c :: cs =>
    match splitNl cs with
    | [] => [[]]
    | h :: t => if c = '\n' then [] :: h :: t else (c :: h) :: t

/-- Python `'\n'.join(parts)`. -/
def joinNl : List Str → Str
  | [] => []
  | [x] => x
  | x :: y :: t => x ++ '\n' :: joinNl (y :: t)

/-- Python `''.join(parts)`. -/
def joinAll : List Str → Str
  | [] => []
  | x :: t => x ++ joinAll t

/-- Iterating a Python text file line by line (`for line in file`): each line
keeps its trailing newline, an unterminated final line is yielded without one,
and an empty file yields no lines. -/
def fileLines : Str → List Str
  | [] => []
  | c :: cs =>
    if c = '\n' then ['\n'] :: fileLines cs
    else
      match fileLines cs with
      | [] => [[c]]
      | h :: t => (c :: h) :: t

/-- Whitespace characters removed by Python `str.strip()`. -/
def isSpaceCh (c : Char) : Bool :=
  c == ' ' || c == '\n' || c == '\t' || c == '\r'

/-- Python `s.strip()`. -/
def pyStrip (l : Str) : Str :=
  ((l.dropWhile isSpaceCh).reverse.dropWhile isSpaceCh).reverse

/-- Fueled worker for `pySplit`; the fuel is an upper bound on the length of
the string still to be scanned, so the recursion is structural. -/
def pySplitAux (sep : Str) : Nat → Str → List Str
  | _, [] => [[]]
  | 0, _ :: _ => [[]]
  | fuel + 1, c :: cs =>
    if isPrefixS sep (c :: cs) && decide (0 < sep.length) then
      [] :: pySplitAux sep fuel (List.drop sep.length (c :: cs))
    else
      match pySplitAux sep fuel cs with
      | [] => [[]]
      | h :: t => (c :: h) :: t

/-- Python `s.split(sep)` for a non-empty separator: non-overlapping matches
are consumed left to right. -/
def pySplit (sep s : Str) : List Str := pySplitAux sep s.length s

/-- Fueled worker for `countOccur` (same fuel discipline as `pySplitAux`). -/
def countOccurAux (sub : Str) : Nat → Str → Nat
  | _, [] => 0
  | 0, _ :: _ => 0
  | fuel + 1, c :: cs =>
    if isPrefixS sub (c :: cs) && decide (0 < sub.length) then
      1 + countOccurAux sub fuel (List.drop sub.length (c :: cs))
    else
      countOccurAux sub fuel cs

/-- Python `s.count(sub)` for a non-empty pattern: non-overlapping matches are
counted left to right. -/
def countOccur (sub s : Str) : Nat := countOccurAux sub s.length s

/-! ## Embeddings of the note-parsing functions (`mknote/cli.py`) -/

/-- One loop iteration of `get_incomplete_tasks` (cli.py:105-111): the state is
`(in_tasks_section, tasks)`. -/
def incStep (st : Bool × List Str) (line : Str) : Bool × List Str :=
  if strContains line "## Tasks".toList then (true, st.2)
  else if isPrefixS "##".toList line then (false, st.2)
  else if st.1 && isPrefixS "- [ ]".toList line then (st.1, st.2 ++ [line])
  else st

/-- `get_incomplete_tasks` (cli.py:94-113), applied to the file content. -/
def get_incomplete_tasks (content : Str) : List Str :=
  ((splitNl content).foldl incStep (false, [])).2

/-- One loop iteration of `get_expected_tasks` (cli.py:198-204). -/
def expStep (st : Bool × List Str) (line : Str) : Bool × List Str :=
  if strContains line "## Expected for Tomorrow".toList then (true, st.2)
  else if isPrefixS "##".toList line then (false, st.2)
  else if st.1 && isPrefixS "-".toList line then (st.1, st.2 ++ [line])
  else st

/-- `get_expected_tasks` (cli.py:187-206), applied to the file content. -/
def get_expected_tasks (content : Str) : List Str :=
  ((splitNl content).foldl expStep (false, [])).2

/-- `count_completed_tasks` (cli.py:209-218): `content.count('- [x]')`. -/
def count_completed_tasks (content : Str) : Nat :=
  countOccur "- [x]".toList content

/-- The per-day activity level computed inside `generate_contribution_graph`
(cli.py:241-251): the argument is the day's note file (`none` when the file
does not exist, `some content` otherwise). -/
def activityLevel : Option Str → Nat
  | none => 0
  | some content =>
    let c := count_completed_tasks content
    if c = 0 then 1 else min 4 (1 + c / 3)

/-- `get_template_tasks` (cli.py:87-91): three placeholder task lines. -/
def get_template_tasks : Str :=
  joinNl [" -  Task 0".toList, " -  Task 1".toList, " -  Task 2".toList]

/-- `TEMPLATE.format(...)` (cli.py:65-85): the template text, written as the
newline-join of the text between its newlines (the trailing `[]` produces the
final newline of the template). -/
def render (today p carried expected : Str) : Str :=
  joinNl
    [ "# Daily Note - ".toList ++ today ++ " - ".toList ++ p,
      [],
      "## Goals for Today".toList,
      "- [ ] Goal 1".toList,
      "- [ ] Goal 2".toList,
      "- [ ] Goal 3".toList,
      [],
      "## Tasks".toList,
      carried,
      [],
      "## Notes".toList,
      "- Note 1".toList,
      "- Note 2".toList,
      [],
      "## Expected for Tomorrow".toList,
      expected,
      [],
      "## Reflections".toList,
      "- What went well today?".toList,
      "- What could be improved?".toList,
      [] ]

/-! ## Embedding of the important-item extractor (`get_important_items`) -/

/-- The open marker `[!]`. -/
def obMark : Str := "[!]".toList

/-- The close marker `[!!]`. -/
def cbMark : Str := "[!!]".toList

/-- An extracted important item (cli.py:143-147). -/
structure ImpItem where
  item : Str
  sect : Option Str
  date : Str
deriving DecidableEq

/-- Scanner state of `get_important_items`: the current section, the
accumulated `current_text` fragments, and the items collected so far. -/
structure ScanSt where
  sect : Option Str
  cur : List Str
  items : List ImpItem
deriving DecidableEq

/-- The value of `current_text` after the collect/reset steps of one loop
iteration of `get_important_items` (cli.py:135-139). -/
def impCur2 (st : ScanSt) (line : Str) : List Str :=
  if strContains line obMark then [[' '], line]
  else if st.cur.isEmpty then st.cur
  else st.cur ++ [line]

/-- One loop iteration of `get_important_items` (cli.py:129-148).  The emitted
item text is `''.join(current_text).split('[!]')[1].split('[!!]')[0]`; the
index accesses are modelled with defaults (`getD`/`headD`), and the safety
theorem for C10 shows the defaults are never used. -/
def impStep (date : Str) (st : ScanSt) (line : Str) : ScanSt :=
  if isPrefixS "##".toList line then { st with sect := some (pyStrip (line.drop 2)) }
  else
    let cur2 := impCur2 st line
    if strContains line cbMark then
      if cur2.isEmpty then { st with cur := cur2 }
      else
        { st with
          cur := [],
          items := st.items ++
            [{ item := (pySplit cbMark ((pySplit obMark (joinAll cur2)).getD 1 [])).headD [],
               sect := st.sect, date := date }] }
    else { st with cur := cur2 }

/-- The initial scanner state of `get_important_items` (cli.py:125-126). -/
def impInit : ScanSt := ⟨none, [], []⟩

/-- The scanner state after processing a list of lines. -/
def scanImp (date : Str) (lines : List Str) : ScanSt :=
  lines.foldl (impStep date) impInit

/-- The date tag of an item: `os.path.basename(filename).replace('.md', '')`
(cli.py:146); `replace(a, '')` is split on `a` followed by concatenation. -/
def stemOf (fname : Str) : Str := joinAll (pySplit ".md".toList fname)

/-- `get_important_items` (cli.py:116-151) on a file with the given name and
content. -/
def get_important_items (fname content : Str) : List ImpItem :=
  (scanImp (stemOf fname) (fileLines content)).items

/-! ## Embedding of the project / note filesystem operations -/

/-- Lexicographic string comparison (Python `<=` on strings). -/
def lexLe : Str → Str → Bool
  | [], _ => true
  | _ :: _, [] => false
  | a :: as, b :: bs => if a = b then lexLe as bs else decide (a < b)

/-- Insert into a descending-sorted list (helper of `sortDesc`). -/
def insertDesc (x : Str) : List Str → List Str
  | [] => [x]
  | y :: ys => if lexLe y x then x :: y :: ys else y :: insertDesc x ys

/-- Python `list.sort(reverse=True)`: descending lexicographic sort. -/
def sortDesc (l : List Str) : List Str := l.foldr insertDesc []

/-- Python `s.endswith(suf)`. -/
def strEndsWith (s suf : Str) : Bool := isPrefixS suf.reverse s.reverse

/-- Read the content of a named file of a directory (first match). -/
def lookupFile : List (Str × Str) → Str → Option Str
  | [], _ => none
  | (k, v) :: fs, n => if k = n then some v else lookupFile fs n

/-- `os.path.exists` of a file inside a directory. -/
def hasFile (files : List (Str × Str)) (n : Str) : Bool :=
  files.any (fun f => f.1 == n)

/-- `find_last_note` (cli.py:294-310): filter out non-`.md` files and
`README.md`, sort descending, return the content of the first file. -/
def findLastNote (files : List (Str × Str)) : Option Str :=
  match sortDesc ((files.filter
      (fun f => strEndsWith f.1 ".md".toList && !(f.1 == "README.md".toList))).map Prod.fst) with
  | [] => none
  | n :: _ => lookupFile files n

/-- The carried-task computation of `create_daily_note` (cli.py:391-395):
incomplete tasks of the last note followed by its expected tasks; empty when
there is no prior note. -/
def carriedTasks (files : List (Str × Str)) : List Str :=
  match findLastNote files with
  | none => []
  | some content => get_incomplete_tasks content ++ get_expected_tasks content

/-- The static placeholder written into the Expected section (cli.py:400):
`expected_tasks` is always empty, so this string is always used. -/
def expectedPlaceholder : Str := "- No expected tasks".toList

/-- `create_daily_note` (cli.py:370-418) on the state of one project:
`none` means the project directory does not exist.  Returns the flag
returned by the Python function together with the new directory state. -/
def createDailyNote (p today : Str) (fs : Option (List (Str × Str))) :
    Bool × Option (List (Str × Str)) :=
  match fs with
  | none => (false, none)
  | some files =>
    if hasFile files (today ++ ".md".toList) then (false, some files)
    else
      (true, some (files ++ [(today ++ ".md".toList,
        render today p
          (match carriedTasks files with
           | [] => get_template_tasks
           | _ :: _ => joinNl (carriedTasks files))
          expectedPlaceholder)]))

/-- The README written by `create_project` (cli.py:327-328). -/
def readmeContent (p today : Str) : Str :=
  "# ".toList ++ p ++ "\n\nProject created on ".toList ++ today

/-- `create_project` (cli.py:313-332): fails when the directory exists,
otherwise creates the directory, the README and the first daily note. -/
def createProject (p today : Str) (fs : Option (List (Str × Str))) :
    Bool × Option (List (Str × Str)) :=
  match fs with
  | some files => (false, some files)
  | none =>
    let files0 := [("README.md".toList, readmeContent p today)]
    (true, (createDailyNote p today (some files0)).2)

/-! ## Embedding of the configuration store (`load_config` / `save_config`) -/

/-- A JSON object, as an ordered key/value list. -/
abbrev ConfigDict := List (String × String)

/-- Lookup of a key in a JSON object (first match). -/
def dictGet : ConfigDict → String → Option String
  | [], _ => none
  | (k, v) :: d, key => if k == key then some v else dictGet d key

/-- Python `key in config`. -/
def dictHas (d : ConfigDict) (k : String) : Bool := (dictGet d k).isSome

/-- `default_config` (cli.py:20-25). -/
def defaultConfig : ConfigDict :=
  [("base_dir", "~/.notes"), ("gemini_api_key", ""), ("editor", "vim"),
   ("template_path", "")]

/-- The merge loop of `load_config` (cli.py:38-40): every expected key missing
from the stored config is filled from the defaults. -/
def mergeDefaults (d : ConfigDict) : ConfigDict :=
  defaultConfig.foldl (fun acc kv => if dictHas acc kv.1 then acc else acc ++ [kv]) d

/-- The on-disk state of the config file: missing, unparseable JSON, or a
parsed JSON object. -/
inductive ConfigFile where
  | missing
  | corrupt
  | stored (d : ConfigDict)
deriving DecidableEq

/-- `load_config` (cli.py:18-46): returns the loaded config together with the
resulting on-disk state (`save_config` persists the defaults when the file is
missing or corrupt; a parsed file is left untouched). -/
def load_config : ConfigFile → ConfigDict × ConfigFile
  | .missing => (defaultConfig, .stored defaultConfig)
  | .corrupt => (defaultConfig, .stored defaultConfig)
  | .stored d => (mergeDefaults d, .stored d)

/-! ## Section extraction used to state the claims

The claims speak about "the Tasks section" of a rendered note: the lines after
a line containing `## Tasks` (respectively after the exact header line) and
before the next line starting with `##`. -/

/-- Lines before the next `##` heading. -/
def takeUntilHdr : List Str → List Str
  | [] => []
  | l :: ls => if isPrefixS "##".toList l then [] else l :: takeUntilHdr ls

/-- The region after the first line containing `marker`, up to the next `##`
heading (the section notion of claim C1, mirroring `get_incomplete_tasks`). -/
def regionAfter (marker : Str) : List Str → List Str
  | [] => []
  | l :: ls => if strContains l marker then takeUntilHdr ls else regionAfter marker ls

/-- The region after the first line equal to `hdr`, up to the next `##`
heading. -/
def regionAfterLine (hdr : Str) : List Str → List Str
  | [] => []
  | l :: ls => if l = hdr then takeUntilHdr ls else regionAfterLine hdr ls

/-- The block of lines seeded into the Tasks section of a new note: the
carried tasks when there are any, the three placeholder lines otherwise. -/
def taskSeed (files : List (Str × Str)) : List Str :=
  match carriedTasks files with
  | [] => [" -  Task 0".toList, " -  Task 1".toList, " -  Task 2".toList]
  | c => c

/-! ## Basic lemmas about the string primitives -/

lemma isPrefixS_iff (pre s : Str) : isPrefixS pre s = true ↔ ∃ r, s = pre ++ r := by
  induction pre generalizing s with
  | nil => simp [isPrefixS]
  | cons a as ih =>
    cases s with
    | nil => simp [isPrefixS]
    | cons b bs =>
      simp only [isPrefixS, Bool.and_eq_true, beq_iff_eq, ih, List.cons_append,
        List.cons.injEq]
      constructor
      · rintro ⟨hab, r, hr⟩
        exact ⟨r, hab.symm, hr⟩
      · rintro ⟨r, hba, hr⟩
        exact ⟨hba.symm, r, hr⟩

lemma isPrefixS_mono (x y l : Str) (h : isPrefixS (x ++ y) l = true) :
    isPrefixS x l = true := by
  rw [isPrefixS_iff] at h ⊢
  obtain ⟨r, rfl⟩ := h
  exact ⟨y ++ r, by simp⟩

lemma strContains_iff (s sub : Str) :
    strContains s sub = true ↔ ∃ a b, s = a ++ (sub ++ b) := by
  induction s with
  | nil =>
    simp only [strContains, isPrefixS_iff]
    constructor
    · rintro ⟨r, hr⟩
      exact ⟨[], r, hr⟩
    · rintro ⟨a, b, hab⟩
      rcases List.append_eq_nil.mp hab.symm with ⟨rfl, h2⟩
      exact ⟨b, hab⟩
  | cons c cs ih =>
    simp only [strContains, Bool.or_eq_true, isPrefixS_iff, ih]
    constructor
    · rintro (⟨r, hr⟩ | ⟨a, b, hab⟩)
      · exact ⟨[], r, by simp [hr]⟩
      · exact ⟨c :: a, b, by simp [hab]⟩
    · rintro ⟨a, b, hab⟩
      cases a with
      | nil => exact Or.inl ⟨b, by simpa using hab⟩
      | cons x xs =>
        rw [List.cons_append, List.cons.injEq] at hab
        exact Or.inr ⟨xs, b, hab.2⟩

lemma strContains_append_left (a b sub : Str) (h : strContains a sub = true) :
    strContains (a ++ b) sub = true := by
  rw [strContains_iff] at h ⊢
  obtain ⟨x, y, rfl⟩ := h
  exact ⟨x, y ++ b, by simp⟩

lemma strContains_append_right (a b sub : Str) (h : strContains b sub = true) :
    strContains (a ++ b) sub = true := by
  rw [strContains_iff] at h ⊢
  obtain ⟨x, y, rfl⟩ := h
  exact ⟨a ++ x, y, by simp⟩

lemma count_le_of_contains (s sub : Str) (ch : Char)
    (h : strContains s sub = true) : sub.count ch ≤ s.count ch := by
  rw [strContains_iff] at h
  obtain ⟨a, b, rfl⟩ := h
  simp [List.count_append]
  omega

/-! ## Lemmas about `splitNl` and `joinNl` -/

lemma splitNl_ne_nil (s : Str) : splitNl s ≠ [] := by
  induction s with
  | nil => simp [splitNl]
  | cons c cs ih =>
    unfold splitNl
    cases h : splitNl cs with
    | nil => simp
    | cons hd tl => by_cases hc : c = '\n' <;> simp [hc]

lemma splitNl_append_nl (a b : Str) :
    splitNl (a ++ '\n' :: b) = splitNl a ++ splitNl b := by
  induction a with
  | nil =>
    cases h : splitNl b with
    | nil => exact absurd h (splitNl_ne_nil b)
    | cons hd tl => simp [splitNl, h]
  | cons c cs ih =>
    cases hcs : splitNl cs with
    | nil => exact absurd hcs (splitNl_ne_nil cs)
    | cons hd tl =>
      by_cases hc : c = '\n' <;> simp [splitNl, ih, hcs, hc]

lemma splitNl_cons_nl (b : Str) : splitNl ('\n' :: b) = [] :: splitNl b := by
  simpa using splitNl_append_nl [] b

lemma splitNl_no_nl (a : Str) (h : '\n' ∉ a) : splitNl a = [a] := by
  induction a with
  | nil => simp [splitNl]
  | cons c cs ih =>
    have hc : ¬ c = '\n' := fun hc => h (hc ▸ List.mem_cons_self c cs)
    have hcs := ih (fun hm => h (List.mem_cons_of_mem _ hm))
    simp [splitNl, hcs, hc]

lemma splitNl_line (a : Str) (h : '\n' ∉ a) (b : Str) :
    splitNl (a ++ '\n' :: b) = a :: splitNl b := by
  rw [splitNl_append_nl, splitNl_no_nl a h]
  simp

lemma mem_splitNl_no_nl (s l : Str) (hl : l ∈ splitNl s) : '\n' ∉ l := by
  induction s generalizing l with
  | nil =>
    simp [splitNl] at hl
    simp [hl]
  | cons c cs ih =>
    cases hcs : splitNl cs with
    | nil => exact absurd hcs (splitNl_ne_nil cs)
    | cons hd tl =>
      rw [splitNl, hcs] at hl
      dsimp only at hl
      have hhd : hd ∈ splitNl cs := by rw [hcs]; exact List.mem_cons_self hd tl
      by_cases hc : c = '\n'
      · rw [if_pos hc] at hl
        rcases List.mem_cons.mp hl with rfl | h2
        · simp
        · exact ih l (by rw [hcs]; exact h2)
      · rw [if_neg hc] at hl
        rcases List.mem_cons.mp hl with rfl | h2
        · intro hmem
          rcases List.mem_cons.mp hmem with h1 | h3
          · exact hc h1.symm
          · exact ih hd hhd h3
        · exact ih l (by rw [hcs]; exact List.mem_cons_of_mem hd h2)

lemma splitNl_joinNl (xs : List Str) (hne : xs ≠ [])
    (hnl : ∀ l ∈ xs, '\n' ∉ l) : splitNl (joinNl xs) = xs := by
  induction xs with
  | nil => exact absurd rfl hne
  | cons x xs ih =>
    cases xs with
    | nil => simpa [joinNl] using splitNl_no_nl x (hnl x (by simp))
    | cons y t =>
      rw [joinNl, splitNl_line x (hnl x (by simp))]
      rw [ih (by simp) (fun l hl => hnl l (List.mem_cons_of_mem _ hl))]

/-! ## The line structure of a rendered note -/

lemma splitNl_render (today p carried expected : Str)
    (ht : '\n' ∉ today) (hp : '\n' ∉ p) :
    splitNl (render today p carried expected) =
      ("# Daily Note - ".toList ++ today ++ " - ".toList ++ p) ::
      [] :: "## Goals for Today".toList :: "- [ ] Goal 1".toList ::
      "- [ ] Goal 2".toList :: "- [ ] Goal 3".toList :: [] :: "## Tasks".toList ::
      (splitNl carried ++
        [] :: "## Notes".toList :: "- Note 1".toList :: "- Note 2".toList ::
        [] :: "## Expected for Tomorrow".toList ::
        (splitNl expected ++
          [] :: "## Reflections".toList :: "- What went well today?".toList ::
          "- What could be improved?".toList :: [[]])) := by
  have htitle : '\n' ∉ "# Daily Note - ".toList ++ today ++ " - ".toList ++ p := by
    intro hmem
    simp only [List.mem_append] at hmem
    rcases hmem with ((h1 | h2) | h3) | h4
    · revert h1; decide
    · exact ht h2
    · revert h3; decide
    · exact hp h4
  unfold render
  simp only [joinNl, List.nil_append]
  rw [splitNl_line _ htitle, splitNl_cons_nl,
    splitNl_line _ (by decide), splitNl_line _ (by decide),
    splitNl_line _ (by decide), splitNl_line _ (by decide),
    splitNl_cons_nl, splitNl_line _ (by decide),
    splitNl_append_nl, splitNl_cons_nl,
    splitNl_line _ (by decide), splitNl_line _ (by decide),
    splitNl_line _ (by decide), splitNl_cons_nl,
    splitNl_line _ (by decide),
    splitNl_append_nl, splitNl_cons_nl,
    splitNl_line _ (by decide), splitNl_line _ (by decide),
    splitNl_line _ (by decide)]
  simp [splitNl]

/-! ## Walking the section extractors over a line list -/

lemma takeUntilHdr_cons (l : Str) (ls : List Str) :
    takeUntilHdr (l :: ls) =
      if isPrefixS "##".toList l then [] else l :: takeUntilHdr ls := rfl

lemma takeUntilHdr_cons_pos (l : Str) (ls : List Str)
    (h : isPrefixS "##".toList l = true) : takeUntilHdr (l :: ls) = [] := by
  rw [takeUntilHdr_cons, h]
  rfl

lemma takeUntilHdr_cons_neg (l : Str) (ls : List Str)
    (h : isPrefixS "##".toList l = false) :
    takeUntilHdr (l :: ls) = l :: takeUntilHdr ls := by
  rw [takeUntilHdr_cons, h]
  rfl

lemma takeUntilHdr_append_no (xs ys : List Str)
    (h : ∀ l ∈ xs, isPrefixS "##".toList l = false) :
    takeUntilHdr (xs ++ ys) = xs ++ takeUntilHdr ys := by
  induction xs with
  | nil => simp
  | cons x t ih =>
    rw [List.cons_append, takeUntilHdr_cons_neg x _ (h x (by simp)),
      ih (fun l hl => h l (List.mem_cons_of_mem _ hl))]
    simp

lemma regionAfter_cons (m l : Str) (ls : List Str) :
    regionAfter m (l :: ls) =
      if strContains l m then takeUntilHdr ls else regionAfter m ls := rfl

lemma regionAfter_cons_pos (m l : Str) (ls : List Str)
    (h : strContains l m = true) :
    regionAfter m (l :: ls) = takeUntilHdr ls := by
  rw [regionAfter_cons, h]
  rfl

lemma regionAfter_cons_neg (m l : Str) (ls : List Str)
    (h : strContains l m = false) :
    regionAfter m (l :: ls) = regionAfter m ls := by
  rw [regionAfter_cons, h]
  rfl

lemma regionAfterLine_cons (hdr l : Str) (ls : List Str) :
    regionAfterLine hdr (l :: ls) =
      if l = hdr then takeUntilHdr ls else regionAfterLine hdr ls := rfl

lemma regionAfterLine_cons_pos (hdr : Str) (ls : List Str) :
    regionAfterLine hdr (hdr :: ls) = takeUntilHdr ls := by
  rw [regionAfterLine_cons, if_pos rfl]

lemma regionAfterLine_cons_neg (hdr l : Str) (ls : List Str) (h : l ≠ hdr) :
    regionAfterLine hdr (l :: ls) = regionAfterLine hdr ls := by
  rw [regionAfterLine_cons, if_neg h]

lemma regionAfterLine_append_no (hdr : Str) (xs ys : List Str)
    (h : ∀ l ∈ xs, l ≠ hdr) :
    regionAfterLine hdr (xs ++ ys) = regionAfterLine hdr ys := by
  induction xs with
  | nil => simp
  | cons x t ih =>
    rw [List.cons_append, regionAfterLine_cons_neg hdr x _ (h x (by simp))]
    exact ih (fun l hl => h l (List.mem_cons_of_mem _ hl))

/-! ## Facts about the title line of a rendered note -/

lemma title_not_contains (today p m : Str) (hm : 2 ≤ m.count '#')
    (ht : '#' ∉ today) (hp : '#' ∉ p) :
    strContains ("# Daily Note - ".toList ++ today ++ " - ".toList ++ p) m
      = false := by
  cases hC : strContains ("# Daily Note - ".toList ++ today ++ " - ".toList ++ p) m with
  | false => rfl
  | true =>
    exfalso
    have hle := count_le_of_contains _ m '#' hC
    rw [List.count_append, List.count_append, List.count_append] at hle
    rw [List.count_eq_zero.mpr ht, List.count_eq_zero.mpr hp] at hle
    have h1 : List.count '#' "# Daily Note - ".toList = 1 := by decide
    have h2 : List.count '#' " - ".toList = 0 := by decide
    omega

lemma title_not_hdr (today p : Str) :
    isPrefixS "##".toList
      ("# Daily Note - ".toList ++ today ++ " - ".toList ++ p) = false := by
  show isPrefixS "##".toList
    ('#' :: ' ' :: ("Daily Note - ".toList ++ today ++ " - ".toList ++ p)) = false
  rfl

lemma title_ne_hdr2 (today p h1 : Str) (t : Str)
    (hh : h1 = '#' :: '#' :: t) :
    ("# Daily Note - ".toList ++ today ++ " - ".toList ++ p) ≠ h1 := by
  subst hh
  show ('#' :: ' ' :: ("Daily Note - ".toList ++ today ++ " - ".toList ++ p)) ≠ _
  simp

/-! ## Invariants of the task-collecting scans -/

lemma incStep_snd (st : Bool × List Str) (x : Str) :
    (incStep st x).2 = st.2 ∨
      ((incStep st x).2 = st.2 ++ [x] ∧ isPrefixS "- [ ]".toList x = true) := by
  unfold incStep
  by_cases c1 : strContains x "## Tasks".toList = true
  · rw [if_pos c1]
    exact Or.inl rfl
  · rw [if_neg c1]
    by_cases c2 : isPrefixS "##".toList x = true
    · rw [if_pos c2]
      exact Or.inl rfl
    · rw [if_neg c2]
      by_cases c3 : (st.1 && isPrefixS "- [ ]".toList x) = true
      · rw [if_pos c3]
        exact Or.inr ⟨rfl, (Bool.and_eq_true _ _ |>.mp c3).2⟩
      · rw [if_neg c3]
        exact Or.inl rfl

lemma expStep_snd (st : Bool × List Str) (x : Str) :
    (expStep st x).2 = st.2 ∨
      ((expStep st x).2 = st.2 ++ [x] ∧ isPrefixS "-".toList x = true) := by
  unfold expStep
  by_cases c1 : strContains x "## Expected for Tomorrow".toList = true
  · rw [if_pos c1]
    exact Or.inl rfl
  · rw [if_neg c1]
    by_cases c2 : isPrefixS "##".toList x = true
    · rw [if_pos c2]
      exact Or.inl rfl
    · rw [if_neg c2]
      by_cases c3 : (st.1 && isPrefixS "-".toList x) = true
      · rw [if_pos c3]
        exact Or.inr ⟨rfl, (Bool.and_eq_true _ _ |>.mp c3).2⟩
      · rw [if_neg c3]
        exact Or.inl rfl

lemma foldl_incStep_mem (lines : List Str) (st : Bool × List Str) (l : Str)
    (h : l ∈ (lines.foldl incStep st).2) :
    l ∈ st.2 ∨ (l ∈ lines ∧ isPrefixS "- [ ]".toList l = true) := by
  induction lines generalizing st with
  | nil => exact Or.inl (by simpa using h)
  | cons x xs ih =>
    rw [List.foldl_cons] at h
    rcases ih (incStep st x) h with h1 | h2
    · rcases incStep_snd st x with he | ⟨he, hpre⟩
      · exact Or.inl (he ▸ h1)
      · rw [he] at h1
        rcases List.mem_append.mp h1 with hm | hm
        · exact Or.inl hm
        · have : l = x := by simpa using hm
          subst this
          exact Or.inr ⟨List.mem_cons_self _ _, hpre⟩
    · exact Or.inr ⟨List.mem_cons_of_mem _ h2.1, h2.2⟩

lemma foldl_expStep_mem (lines : List Str) (st : Bool × List Str) (l : Str)
    (h : l ∈ (lines.foldl expStep st).2) :
    l ∈ st.2 ∨ (l ∈ lines ∧ isPrefixS "-".toList l = true) := by
  induction lines generalizing st with
  | nil => exact Or.inl (by simpa using h)
  | cons x xs ih =>
    rw [List.foldl_cons] at h
    rcases ih (expStep st x) h with h1 | h2
    · rcases expStep_snd st x with he | ⟨he, hpre⟩
      · exact Or.inl (he ▸ h1)
      · rw [he] at h1
        rcases List.mem_append.mp h1 with hm | hm
        · exact Or.inl hm
        · have : l = x := by simpa using hm
          subst this
          exact Or.inr ⟨List.mem_cons_self _ _, hpre⟩
    · exact Or.inr ⟨List.mem_cons_of_mem _ h2.1, h2.2⟩

lemma get_incomplete_tasks_spec (content l : Str)
    (h : l ∈ get_incomplete_tasks content) :
    l ∈ splitNl content ∧ isPrefixS "- [ ]".toList l = true := by
  rcases foldl_incStep_mem _ _ _ h with h1 | h2
  · simp at h1
  · exact h2

lemma get_expected_tasks_spec (content l : Str)
    (h : l ∈ get_expected_tasks content) :
    l ∈ splitNl content ∧ isPrefixS "-".toList l = true := by
  rcases foldl_expStep_mem _ _ _ h with h1 | h2
  · simp at h1
  · exact h2

/-! ## Properties of the lines carried into a new note -/

lemma dash_head (l : Str) (h : isPrefixS "-".toList l = true) :
    ∃ r, l = '-' :: r := by
  rw [isPrefixS_iff] at h
  obtain ⟨r, rfl⟩ := h
  exact ⟨r, rfl⟩

lemma carried_line_dash (files : List (Str × Str)) (l : Str)
    (h : l ∈ carriedTasks files) : isPrefixS "-".toList l = true := by
  unfold carriedTasks at h
  cases hfl : findLastNote files with
  | none => rw [hfl] at h; simp at h
  | some c =>
    rw [hfl] at h
    rcases List.mem_append.mp h with h1 | h2
    · have := (get_incomplete_tasks_spec c l h1).2
      exact isPrefixS_mono "-".toList " [ ]".toList l this
    · exact (get_expected_tasks_spec c l h2).2

lemma carried_line_no_nl (files : List (Str × Str)) (l : Str)
    (h : l ∈ carriedTasks files) : '\n' ∉ l := by
  unfold carriedTasks at h
  cases hfl : findLastNote files with
  | none => rw [hfl] at h; simp at h
  | some c =>
    rw [hfl] at h
    rcases List.mem_append.mp h with h1 | h2
    · exact mem_splitNl_no_nl c l (get_incomplete_tasks_spec c l h1).1
    · exact mem_splitNl_no_nl c l (get_expected_tasks_spec c l h2).1

lemma dash_not_hdr (l : Str) (h : isPrefixS "-".toList l = true) :
    isPrefixS "##".toList l = false := by
  obtain ⟨r, rfl⟩ := dash_head l h
  rfl

lemma dash_ne_nil (l : Str) (h : isPrefixS "-".toList l = true) : l ≠ [] := by
  obtain ⟨r, rfl⟩ := dash_head l h
  simp

lemma dash_ne_hdr2 (l h1 t : Str) (hh : h1 = '#' :: '#' :: t)
    (h : isPrefixS "-".toList l = true) : l ≠ h1 := by
  obtain ⟨r, rfl⟩ := dash_head l h
  subst hh
  simp

/-! ## The seed block written into the Tasks section -/

lemma splitNl_carriedStr (files : List (Str × Str)) :
    splitNl (match carriedTasks files with
      | [] => get_template_tasks
      | _ :: _ => joinNl (carriedTasks files)) = taskSeed files := by
  cases hc : carriedTasks files with
  | nil =>
    simp only [taskSeed, hc]
    decide
  | cons a t =>
    simp only [taskSeed, hc]
    exact splitNl_joinNl (a :: t) (by simp)
      (fun l hl => carried_line_no_nl files l (by rw [hc]; exact hl))

lemma taskSeed_facts (files : List (Str × Str)) (l : Str)
    (h : l ∈ taskSeed files) :
    isPrefixS "##".toList l = false ∧ l.isEmpty = false ∧
      l ≠ "## Expected for Tomorrow".toList := by
  unfold taskSeed at h
  cases hc : carriedTasks files with
  | nil =>
    rw [hc] at h
    simp only [List.mem_cons, List.not_mem_nil, or_false] at h
    rcases h with rfl | rfl | rfl
    · exact ⟨by decide, by decide, by decide⟩
    · exact ⟨by decide, by decide, by decide⟩
    · exact ⟨by decide, by decide, by decide⟩
  | cons a t =>
    rw [hc] at h
    have hdash : isPrefixS "-".toList l = true :=
      carried_line_dash files l (by rw [hc]; exact h)
    obtain ⟨r, rfl⟩ := dash_head l hdash
    exact ⟨rfl, rfl, by simp⟩

/-! ## The Tasks and Expected regions of a freshly written note -/

lemma tasksRegion_render (today p expected : Str) (files : List (Str × Str))
    (ht : '\n' ∉ today) (hp : '\n' ∉ p) (ht2 : '#' ∉ today) (hp2 : '#' ∉ p) :
    regionAfter "## Tasks".toList
      (splitNl (render today p
        (match carriedTasks files with
         | [] => get_template_tasks
         | _ :: _ => joinNl (carriedTasks files)) expected)) =
      taskSeed files ++ [[]] := by
  rw [splitNl_render _ _ _ _ ht hp, splitNl_carriedStr]
  rw [regionAfter_cons_neg _ _ _ (title_not_contains today p _ (by decide) ht2 hp2)]
  rw [regionAfter_cons_neg _ _ _ (by decide)]
  rw [regionAfter_cons_neg _ _ _ (by decide)]
  rw [regionAfter_cons_neg _ _ _ (by decide)]
  rw [regionAfter_cons_neg _ _ _ (by decide)]
  rw [regionAfter_cons_neg _ _ _ (by decide)]
  rw [regionAfter_cons_neg _ _ _ (by decide)]
  rw [regionAfter_cons_pos _ _ _ (by decide)]
  rw [takeUntilHdr_append_no _ _ (fun l hl => (taskSeed_facts files l hl).1)]
  rw [takeUntilHdr_cons_neg _ _ (by decide)]
  rw [takeUntilHdr_cons_pos _ _ (by decide)]

lemma expectedRegion_render (today p : Str) (files : List (Str × Str))
    (ht : '\n' ∉ today) (hp : '\n' ∉ p) :
    regionAfterLine "## Expected for Tomorrow".toList
      (splitNl (render today p
        (match carriedTasks files with
         | [] => get_template_tasks
         | _ :: _ => joinNl (carriedTasks files)) expectedPlaceholder)) =
      [expectedPlaceholder, []] := by
  rw [splitNl_render _ _ _ _ ht hp, splitNl_carriedStr]
  rw [regionAfterLine_cons_neg _ _ _
    (title_ne_hdr2 today p "## Expected for Tomorrow".toList
      " Expected for Tomorrow".toList (by decide))]
  rw [regionAfterLine_cons_neg _ _ _ (by decide)]
  rw [regionAfterLine_cons_neg _ _ _ (by decide)]
  rw [regionAfterLine_cons_neg _ _ _ (by decide)]
  rw [regionAfterLine_cons_neg _ _ _ (by decide)]
  rw [regionAfterLine_cons_neg _ _ _ (by decide)]
  rw [regionAfterLine_cons_neg _ _ _ (by decide)]
  rw [regionAfterLine_cons_neg _ _ _ (by decide)]
  rw [regionAfterLine_append_no _ _ _ (fun l hl => (taskSeed_facts files l hl).2.2)]
  rw [regionAfterLine_cons_neg _ _ _ (by decide)]
  rw [regionAfterLine_cons_neg _ _ _ (by decide)]
  rw [regionAfterLine_cons_neg _ _ _ (by decide)]
  rw [regionAfterLine_cons_neg _ _ _ (by decide)]
  rw [regionAfterLine_cons_neg _ _ _ (by decide)]
  rw [regionAfterLine_cons_pos]
  rw [show splitNl expectedPlaceholder = [expectedPlaceholder] from by decide]
  rw [takeUntilHdr_append_no _ _ (by decide)]
  rw [takeUntilHdr_cons_neg _ _ (by decide)]
  rw [takeUntilHdr_cons_pos _ _ (by decide)]
  rfl

lemma createDailyNote_write (p today : Str) (files : List (Str × Str))
    (hnew : hasFile files (today ++ ".md".toList) = false) :
    createDailyNote p today (some files) =
      (true, some (files ++ [(today ++ ".md".toList,
        render today p
          (match carriedTasks files with
           | [] => get_template_tasks
           | _ :: _ => joinNl (carriedTasks files))
          expectedPlaceholder)])) := by
  unfold createDailyNote
  dsimp only
  rw [if_neg (by rw [hnew]; exact Bool.false_ne_true)]

/-! ## Extraction from a freshly created note (no carried tasks) -/

lemma expStep_title (today p : Str) (hth : '#' ∉ today) (hph : '#' ∉ p)
    (st : Bool × List Str) (hst : st.1 = false) :
    expStep st ("# Daily Note - ".toList ++ today ++ " - ".toList ++ p) = st := by
  unfold expStep
  rw [if_neg (by
    rw [title_not_contains today p _ (by decide) hth hph]
    exact Bool.false_ne_true)]
  rw [if_neg (by rw [title_not_hdr]; exact Bool.false_ne_true)]
  rw [if_neg (by rw [hst]; simp)]

lemma incStep_title (today p : Str) (hth : '#' ∉ today) (hph : '#' ∉ p)
    (st : Bool × List Str) (hst : st.1 = false) :
    incStep st ("# Daily Note - ".toList ++ today ++ " - ".toList ++ p) = st := by
  unfold incStep
  rw [if_neg (by
    rw [title_not_contains today p _ (by decide) hth hph]
    exact Bool.false_ne_true)]
  rw [if_neg (by rw [title_not_hdr]; exact Bool.false_ne_true)]
  rw [if_neg (by rw [hst]; simp)]

lemma get_expected_fresh (today p : Str)
    (htn : '\n' ∉ today) (hth : '#' ∉ today) (hpn : '\n' ∉ p) (hph : '#' ∉ p) :
    get_expected_tasks (render today p get_template_tasks expectedPlaceholder) =
      [expectedPlaceholder] := by
  unfold get_expected_tasks
  rw [splitNl_render _ _ _ _ htn hpn]
  rw [show splitNl get_template_tasks =
    [" -  Task 0".toList, " -  Task 1".toList, " -  Task 2".toList] from by decide]
  rw [show splitNl expectedPlaceholder = [expectedPlaceholder] from by decide]
  rw [List.foldl_cons, expStep_title today p hth hph (false, []) rfl]
  decide

lemma get_incomplete_fresh (today p : Str)
    (htn : '\n' ∉ today) (hth : '#' ∉ today) (hpn : '\n' ∉ p) (hph : '#' ∉ p) :
    get_incomplete_tasks (render today p get_template_tasks expectedPlaceholder) =
      [] := by
  unfold get_incomplete_tasks
  rw [splitNl_render _ _ _ _ htn hpn]
  rw [show splitNl get_template_tasks =
    [" -  Task 0".toList, " -  Task 1".toList, " -  Task 2".toList] from by decide]
  rw [show splitNl expectedPlaceholder = [expectedPlaceholder] from by decide]
  rw [List.foldl_cons, incStep_title today p hth hph (false, []) rfl]
  decide

lemma filter_taskSeed (files : List (Str × Str)) :
    (taskSeed files ++ [[]]).filter (fun l => !l.isEmpty) = taskSeed files := by
  rw [List.filter_append]
  have h1 : (taskSeed files).filter (fun l => !l.isEmpty) = taskSeed files :=
    List.filter_eq_self.mpr
      (fun l hl => by rw [(taskSeed_facts files l hl).2.1]; rfl)
  rw [h1]
  simp

/-! ## Safety lemmas for the important-item scanner -/

lemma joinAll_append (a b : List Str) :
    joinAll (a ++ b) = joinAll a ++ joinAll b := by
  induction a with
  | nil => simp [joinAll]
  | cons x t ih => simp [joinAll, ih]

lemma pySplitAux_ne_nil (sep : Str) (fuel : Nat) (s : Str) :
    pySplitAux sep fuel s ≠ [] := by
  match fuel, s with
  | _, [] => simp [pySplitAux]
  | 0, _ :: _ => simp [pySplitAux]
  | f + 1, c :: cs =>
    unfold pySplitAux
    by_cases h : (isPrefixS sep (c :: cs) && decide (0 < sep.length)) = true
    · rw [if_pos h]
      simp
    · rw [if_neg h]
      cases hr : pySplitAux sep f cs with
      | nil => simp
      | cons hd tl => simp

lemma strContains_nil_false (sub : Str) (h : sub ≠ []) :
    strContains [] sub = false := by
  cases sub with
  | nil => exact absurd rfl h
  | cons a as => rfl

lemma two_le_pySplitAux (sub : Str) (fuel : Nat) (s : Str)
    (hf : s.length ≤ fuel) (hsub : sub ≠ []) (hc : strContains s sub = true) :
    2 ≤ (pySplitAux sub fuel s).length := by
  induction fuel generalizing s with
  | zero =>
    cases s with
    | nil => rw [strContains_nil_false sub hsub] at hc; exact absurd hc (by simp)
    | cons c cs => simp at hf
  | succ f ih =>
    cases s with
    | nil => rw [strContains_nil_false sub hsub] at hc; exact absurd hc (by simp)
    | cons c cs =>
      by_cases hpre : isPrefixS sub (c :: cs) = true
      · have hcond : (isPrefixS sub (c :: cs) && decide (0 < sub.length)) = true := by
          rw [hpre]
          simpa using List.length_pos.mpr hsub
        unfold pySplitAux
        rw [if_pos hcond]
        have hne := pySplitAux_ne_nil sub f (List.drop sub.length (c :: cs))
        have := List.length_pos.mpr hne
        simp only [List.length_cons]
        omega
      · have hcond : (isPrefixS sub (c :: cs) && decide (0 < sub.length)) = false := by
          rw [Bool.and_eq_false_iff]
          exact Or.inl (by simpa using hpre)
        have hc' : strContains cs sub = true := by
          rw [strContains] at hc
          rcases Bool.or_eq_true _ _ |>.mp hc with h1 | h2
          · exact absurd h1 hpre
          · exact h2
        have hrec := ih cs (by simpa using Nat.le_of_succ_le_succ hf) hc'
        unfold pySplitAux
        rw [if_neg (by rw [hcond]; exact Bool.false_ne_true)]
        cases hr : pySplitAux sub f cs with
        | nil => exact absurd hr (pySplitAux_ne_nil sub f cs)
        | cons hd tl =>
          rw [hr] at hrec
          simpa using hrec

lemma two_le_pySplit (sub s : Str) (hsub : sub ≠ [])
    (hc : strContains s sub = true) : 2 ≤ (pySplit sub s).length :=
  two_le_pySplitAux sub s.length s (Nat.le_refl _) hsub hc

/-- Invariant: a non-empty `current_text` always contains the open marker. -/
def curInv (st : ScanSt) : Prop :=
  st.cur ≠ [] → strContains (joinAll st.cur) obMark = true

lemma impCur2_contains (st : ScanSt) (line : Str) (hst : curInv st)
    (hne : impCur2 st line ≠ []) :
    strContains (joinAll (impCur2 st line)) obMark = true := by
  unfold impCur2 at *
  by_cases hob : strContains line obMark = true
  · rw [if_pos hob] at *
    show strContains ([' '] ++ (line ++ joinAll [])) obMark = true
    exact strContains_append_right _ _ _
      (by rw [show line ++ joinAll [] = line ++ [] from rfl, List.append_nil]; exact hob)
  · rw [if_neg hob] at *
    by_cases hcur : st.cur.isEmpty = true
    · rw [if_pos hcur] at hne
      exact absurd (List.isEmpty_iff.mp hcur) hne
    · rw [if_neg hcur] at *
      rw [joinAll_append]
      exact strContains_append_left _ _ _
        (hst (fun h => hcur (by rw [h]; rfl)))

lemma impStep_curInv (d : Str) (st : ScanSt) (line : Str) (hst : curInv st) :
    curInv (impStep d st line) := by
  unfold impStep
  by_cases hh : isPrefixS "##".toList line = true
  · rw [if_pos hh]
    exact hst
  · rw [if_neg hh]
    dsimp only
    by_cases hcb : strContains line cbMark = true
    · rw [if_pos hcb]
      by_cases he : (impCur2 st line).isEmpty = true
      · rw [if_pos he]
        intro hne
        exact absurd (List.isEmpty_iff.mp he) hne
      · rw [if_neg he]
        intro hne
        exact absurd rfl hne
    · rw [if_neg hcb]
      intro hne
      exact impCur2_contains st line hst hne

lemma scanImp_curInv (d : Str) (lines : List Str) : curInv (scanImp d lines) := by
  unfold scanImp
  have h : ∀ st, curInv st → curInv (lines.foldl (impStep d) st) := by
    induction lines with
    | nil => exact fun st h => h
    | cons x xs ih =>
      intro st h
      exact ih (impStep d st x) (impStep_curInv d st x h)
  exact h impInit (fun hne => absurd rfl hne)

/-! ## Lemmas for unterminated markers (C6) -/

lemma impStep_items_no_close (d : Str) (st : ScanSt) (line : Str)
    (h : strContains line cbMark = false) :
    (impStep d st line).items = st.items := by
  unfold impStep
  by_cases hh : isPrefixS "##".toList line = true
  · rw [if_pos hh]
  · rw [if_neg hh]
    dsimp only
    rw [if_neg (by rw [h]; exact Bool.false_ne_true)]

lemma foldl_impStep_items_no_close (d : Str) (tail : List Str)
    (h : ∀ l ∈ tail, strContains l cbMark = false) (st : ScanSt) :
    (tail.foldl (impStep d) st).items = st.items := by
  induction tail generalizing st with
  | nil => rfl
  | cons x xs ih =>
    rw [List.foldl_cons, ih (fun l hl => h l (List.mem_cons_of_mem _ hl))]
    exact impStep_items_no_close d st x (h x (List.mem_cons_self _ _))

lemma fileLines_ne_nil (a : Str) (h : a ≠ []) : fileLines a ≠ [] := by
  cases a with
  | nil => exact absurd rfl h
  | cons c cs =>
    unfold fileLines
    by_cases hc : c = '\n'
    · rw [if_pos hc]
      simp
    · rw [if_neg hc]
      cases hfl : fileLines cs with
      | nil => simp
      | cons hd tl => simp

lemma fileLines_append (a b : Str) (ha : a.getLast? = some '\n') :
    fileLines (a ++ b) = fileLines a ++ fileLines b := by
  induction a with
  | nil => simp at ha
  | cons c cs ih =>
    cases cs with
    | nil =>
      have hc : c = '\n' := by simpa using ha
      subst hc
      cases hb : fileLines b with
      | nil => simp [fileLines, hb]
      | cons hd tl => simp [fileLines, hb]
    | cons d ds =>
      have ha' : (d :: ds).getLast? = some '\n' := by
        rwa [List.getLast?_cons_cons] at ha
      by_cases hc : c = '\n'
      · subst hc
        show fileLines ('\n' :: ((d :: ds) ++ b)) = _
        rw [fileLines, if_pos rfl, ih ha']
        rw [show fileLines ('\n' :: d :: ds) = ['\n'] :: fileLines (d :: ds) from by
          rw [fileLines, if_pos rfl]]
        simp
      · cases hfl : fileLines (d :: ds) with
        | nil => exact absurd hfl (fileLines_ne_nil _ (by simp))
        | cons hd tl =>
          show fileLines (c :: ((d :: ds) ++ b)) = _
          rw [fileLines, if_neg hc, ih ha', hfl]
          rw [show fileLines (c :: d :: ds) = (c :: hd) :: tl from by
            rw [fileLines, if_neg hc, hfl]]
          simp

/-! ## Lemmas about the config merge (C8) -/

lemma dictGet_append_some (a b : ConfigDict) (k v : String)
    (h : dictGet a k = some v) : dictGet (a ++ b) k = some v := by
  induction a with
  | nil => simp [dictGet] at h
  | cons kv t ih =>
    obtain ⟨k1, v1⟩ := kv
    by_cases hk : (k1 == k) = true
    · rw [dictGet, if_pos hk] at h
      show dictGet ((k1, v1) :: (t ++ b)) k = some v
      rw [dictGet, if_pos hk]
      exact h
    · rw [dictGet, if_neg hk] at h
      show dictGet ((k1, v1) :: (t ++ b)) k = some v
      rw [dictGet, if_neg hk]
      exact ih h

lemma dictGet_append_none (a b : ConfigDict) (k : String)
    (h : dictGet a k = none) : dictGet (a ++ b) k = dictGet b k := by
  induction a with
  | nil => rfl
  | cons kv t ih =>
    obtain ⟨k1, v1⟩ := kv
    by_cases hk : (k1 == k) = true
    · rw [dictGet, if_pos hk] at h
      exact absurd h (by simp)
    · rw [dictGet, if_neg hk] at h
      show dictGet ((k1, v1) :: (t ++ b)) k = dictGet b k
      rw [dictGet, if_neg hk]
      exact ih h

lemma foldl_merge_some (items d : ConfigDict) (k v : String)
    (h : dictGet d k = some v) :
    dictGet (items.foldl
      (fun acc kv => if dictHas acc kv.1 then acc else acc ++ [kv]) d) k
      = some v := by
  induction items generalizing d with
  | nil => exact h
  | cons kv rest ih =>
    rw [List.foldl_cons]
    apply ih
    by_cases hh : dictHas d kv.1 = true
    · rw [if_pos hh]
      exact h
    · rw [if_neg hh]
      exact dictGet_append_some d [kv] k v h

lemma foldl_merge_none (items d : ConfigDict) (k : String)
    (h : dictGet d k = none) :
    dictGet (items.foldl
      (fun acc kv => if dictHas acc kv.1 then acc else acc ++ [kv]) d) k
      = dictGet items k := by
  induction items generalizing d with
  | nil => simpa [dictGet] using h
  | cons kv rest ih =>
    obtain ⟨k1, v1⟩ := kv
    rw [List.foldl_cons]
    by_cases hk : (k1 == k) = true
    · have hkeq : k1 = k := by simpa using hk
      have hhas : dictHas d k1 = false := by
        unfold dictHas
        rw [hkeq, h]
        rfl
      have hd' : dictGet (if dictHas d (k1, v1).1 then d else d ++ [(k1, v1)]) k
          = some v1 := by
        dsimp only
        rw [if_neg (by rw [hhas]; exact Bool.false_ne_true)]
        rw [dictGet_append_none d [(k1, v1)] k h]
        rw [dictGet, if_pos hk]
      rw [foldl_merge_some rest _ k v1 hd']
      rw [dictGet, if_pos hk]
    · have hd' : dictGet (if dictHas d (k1, v1).1 then d else d ++ [(k1, v1)]) k
          = none := by
        dsimp only
        by_cases hh : dictHas d k1 = true
        · rw [if_pos hh]
          exact h
        · rw [if_neg hh]
          rw [dictGet_append_none d [(k1, v1)] k h]
          rw [dictGet, if_neg hk]
          rfl
      rw [ih _ hd']
      rw [dictGet, if_neg hk]

/-! ## Claim theorems -/

/-- C2: Activity-level function of the contribution graph.  A missing note
file gives level 0; an existing file with completed-task count `c` (the number
of occurrences of `- [x]` in the file) gives level 1 when `c = 0` and
`min 4 (1 + c / 3)` otherwise; in particular `c = 3` gives level 2, `c = 6`
gives level 3, and every `c ≥ 9` gives level 4. -/
theorem activity_level_spec :
    activityLevel none = 0 ∧
    ∀ s : Str,
      (count_completed_tasks s = 0 → activityLevel (some s) = 1) ∧
      (count_completed_tasks s ≠ 0 →
        activityLevel (some s) = min 4 (1 + count_completed_tasks s / 3)) ∧
      (count_completed_tasks s = 3 → activityLevel (some s) = 2) ∧
      (count_completed_tasks s = 6 → activityLevel (some s) = 3) ∧
      (9 ≤ count_completed_tasks s → activityLevel (some s) = 4) := by
  refine ⟨rfl, fun s => ⟨?_, ?_, ?_, ?_, ?_⟩⟩
  · intro h
    simp [activityLevel, h]
  · intro h
    simp [activityLevel, h]
  · intro h
    simp [activityLevel, h]
  · intro h
    simp [activityLevel, h]
  · intro h
    have hc0 : count_completed_tasks s ≠ 0 := by omega
    simp [activityLevel, hc0]
    omega

/-- Witness for C2: a file with three completed tasks has level 2. -/
theorem activity_level_spec_witness :
    activityLevel (some "- [x] a\n- [x] b\n- [x] c\n".toList) = 2 :=
  (activity_level_spec.2 "- [x] a\n- [x] b\n- [x] c\n".toList).2.2.1 (by decide)

/-- C3: `createDailyNote` fails softly and is idempotent-safe.  When the
project directory does not exist, or today's note file already exists, the
call returns `false` and leaves the state unchanged (no file written or
overwritten); otherwise it appends exactly one new file and returns `true`;
and a second call on the same day after a successful one returns `false` with
the state unchanged, so the first file is never overwritten. -/
theorem create_daily_note_soft_fail (p today : Str)
    (fs : Option (List (Str × Str))) :
    (fs = none → createDailyNote p today fs = (false, none)) ∧
    (∀ files, fs = some files →
      hasFile files (today ++ ".md".toList) = true →
      createDailyNote p today fs = (false, some files)) ∧
    (∀ files, fs = some files →
      hasFile files (today ++ ".md".toList) = false →
      ∃ note, createDailyNote p today fs =
        (true, some (files ++ [(today ++ ".md".toList, note)]))) ∧
    (∀ files, fs = some files →
      hasFile files (today ++ ".md".toList) = false →
      createDailyNote p today ((createDailyNote p today fs).2) =
        (false, (createDailyNote p today fs).2)) := by
  refine ⟨?_, ?_, ?_, ?_⟩
  · rintro rfl
    rfl
  · rintro files rfl h
    unfold createDailyNote
    dsimp only
    rw [if_pos h]
  · rintro files rfl h
    exact ⟨_, createDailyNote_write p today files h⟩
  · rintro files rfl h
    rw [createDailyNote_write p today files h]
    unfold createDailyNote
    dsimp only
    rw [if_pos (by
      unfold hasFile
      rw [List.any_append]
      simp)]

/-- Witness for C3: a second same-day call after a successful creation leaves
the state unchanged and returns `false`. -/
theorem create_daily_note_soft_fail_witness :
    createDailyNote "p".toList "2024-01-05".toList
        ((createDailyNote "p".toList "2024-01-05".toList (some [])).2) =
      (false, (createDailyNote "p".toList "2024-01-05".toList (some [])).2) :=
  (create_daily_note_soft_fail "p".toList "2024-01-05".toList (some [])).2.2.2
    [] rfl (by decide)

/-- C5: on the two-line file `"## A\ntext [!] inner [!!] more\n"` the
important-item extractor yields exactly one item whose section is `A`, whose
date is the filename stem, and whose text is the substring strictly between
the open marker and the close marker, i.e. `" inner "`. -/
theorem important_item_extraction (fname : Str) :
    get_important_items fname "## A\ntext [!] inner [!!] more\n".toList =
      [{ item := " inner ".toList, sect := some "A".toList,
         date := stemOf fname }] := rfl

/-- C6: an open marker whose close marker never appears before the end of the
file produces no item, and the items of the earlier, properly closed markers
are unchanged: appending a tail that contains an open `[!]` but no close
`[!!]` does not change the extractor's output. -/
theorem unterminated_marker_dropped (fname pre tailC : Str)
    (hend : pre.getLast? = some '\n')
    (_hob : ∃ l ∈ fileLines tailC, strContains l obMark = true)
    (hcb : ∀ l ∈ fileLines tailC, strContains l cbMark = false) :
    get_important_items fname (pre ++ tailC) = get_important_items fname pre := by
  unfold get_important_items scanImp
  rw [fileLines_append pre tailC hend, List.foldl_append]
  rw [foldl_impStep_items_no_close (stemOf fname) (fileLines tailC) hcb]

/-- Witness for C6: a file with one closed item and a trailing unterminated
open marker extracts the same items as the file without the trailing part. -/
theorem unterminated_marker_dropped_witness :
    get_important_items "2024-01-01.md".toList
        ("## A\na [!] b [!!] c\n".toList ++ "x [!] open\n".toList) =
      get_important_items "2024-01-01.md".toList "## A\na [!] b [!!] c\n".toList :=
  unterminated_marker_dropped "2024-01-01.md".toList
    "## A\na [!] b [!!] c\n".toList "x [!] open\n".toList
    (by decide) (by decide) (by decide)

/-- C8: config load.  On a missing or unparseable file the defaults are
returned and persisted; on a parsed file the stored state is kept on disk and
the returned config keeps the stored value of every present key while every
missing key is filled from the defaults. -/
theorem config_load_merge :
    load_config .missing = (defaultConfig, .stored defaultConfig) ∧
    load_config .corrupt = (defaultConfig, .stored defaultConfig) ∧
    (∀ d, (load_config (.stored d)).2 = .stored d) ∧
    (∀ d k v, dictGet d k = some v →
      dictGet (load_config (.stored d)).1 k = some v) ∧
    (∀ d k, dictGet d k = none →
      dictGet (load_config (.stored d)).1 k = dictGet defaultConfig k) := by
  refine ⟨rfl, rfl, fun d => rfl, ?_, ?_⟩
  · intro d k v h
    exact foldl_merge_some defaultConfig d k v h
  · intro d k h
    exact foldl_merge_none defaultConfig d k h

/-- Witness for C8: a stored config with only `editor` present is returned
with its `editor` value kept and `base_dir` filled from the defaults. -/
theorem config_load_merge_witness :
    dictGet (load_config (.stored [("editor", "nano")])).1 "editor"
        = some "nano" ∧
    dictGet (load_config (.stored [("editor", "nano")])).1 "base_dir"
        = dictGet defaultConfig "base_dir" :=
  ⟨config_load_merge.2.2.2.1 [("editor", "nano")] "editor" "nano" (by decide),
   config_load_merge.2.2.2.2 [("editor", "nano")] "base_dir" (by decide)⟩

/-- C10: the important-item extractor is safe on arbitrary text.  A line
containing the close marker with no unconsumed open marker (empty accumulated
text) and no open marker of its own emits no item; the accumulated text of
any reachable scanner state, when non-empty, contains the open marker; and
whenever the text accumulated at a close line is non-empty, splitting it on
the open marker yields at least two parts, so the index-1 access of the
source is in bounds. -/
theorem important_items_safe :
    (∀ d st line, st.cur = [] → strContains line obMark = false →
      (impStep d st line).items = st.items) ∧
    (∀ d lines, (scanImp d lines).cur ≠ [] →
      strContains (joinAll (scanImp d lines).cur) obMark = true) ∧
    (∀ st line, curInv st → impCur2 st line ≠ [] →
      2 ≤ (pySplit obMark (joinAll (impCur2 st line))).length) := by
  refine ⟨?_, ?_, ?_⟩
  · intro d st line hcur hob
    unfold impStep
    by_cases hh : isPrefixS "##".toList line = true
    · rw [if_pos hh]
    · rw [if_neg hh]
      dsimp only
      have hc2 : impCur2 st line = [] := by
        unfold impCur2
        rw [if_neg (by rw [hob]; exact Bool.false_ne_true), hcur]
        rfl
      rw [hc2]
      by_cases hcb : strContains line cbMark = true
      · rw [if_pos hcb, if_pos (by rfl)]
      · rw [if_neg hcb]
  · intro d lines
    exact scanImp_curInv d lines
  · intro st line hinv hne
    exact two_le_pySplit obMark _ (by decide) (impCur2_contains st line hinv hne)

/-- Witness for C10: scanning one line with an open marker leaves accumulated
text containing the marker. -/
theorem important_items_safe_witness :
    strContains (joinAll (scanImp [] ["x [!] y\n".toList]).cur) obMark = true :=
  important_items_safe.2.1 [] ["x [!] y\n".toList] (by decide)

/-- C1: Carry-over law.  For a successful `createDailyNote` (the project
exists and today's file is new; the project name and date contain no newline
and no `#`, as a `YYYY-MM-DD` date always does), the written note's Tasks
section — the region after the line containing `## Tasks` and before the next
`##` heading — consists of the `- [ ]` lines of the Tasks section of the most
recent prior note followed by the `-` lines of its Expected-for-Tomorrow
section, in original file order, when there is at least one such line, and of
exactly the three placeholder lines ` -  Task 0` .. ` -  Task 2` when there
are none or no prior note exists; non-blank lines are compared (the region
additionally ends with the template's blank separator line, shown by the last
conjunct). -/
theorem create_daily_note_carry_over (p today : Str) (files : List (Str × Str))
    (hpn : '\n' ∉ p) (hph : '#' ∉ p) (htn : '\n' ∉ today) (hth : '#' ∉ today)
    (hnew : hasFile files (today ++ ".md".toList) = false) :
    ∃ note,
      createDailyNote p today (some files) =
        (true, some (files ++ [(today ++ ".md".toList, note)])) ∧
      (∀ prior, findLastNote files = some prior →
        (regionAfter "## Tasks".toList (splitNl note)).filter
            (fun l => !l.isEmpty) =
          (match get_incomplete_tasks prior ++ get_expected_tasks prior with
           | [] => [" -  Task 0".toList, " -  Task 1".toList, " -  Task 2".toList]
           | c => c)) ∧
      (findLastNote files = none →
        (regionAfter "## Tasks".toList (splitNl note)).filter
            (fun l => !l.isEmpty) =
          [" -  Task 0".toList, " -  Task 1".toList, " -  Task 2".toList]) ∧
      regionAfter "## Tasks".toList (splitNl note) = taskSeed files ++ [[]] := by
  have hreg := tasksRegion_render today p expectedPlaceholder files htn hpn hth hph
  have hfil : (regionAfter "## Tasks".toList
      (splitNl (render today p
        (match carriedTasks files with
         | [] => get_template_tasks
         | _ :: _ => joinNl (carriedTasks files)) expectedPlaceholder))).filter
      (fun l => !l.isEmpty) = taskSeed files := by
    rw [hreg]
    exact filter_taskSeed files
  refine ⟨_, createDailyNote_write p today files hnew, ?_, ?_, hreg⟩
  · intro prior hprior
    rw [hfil]
    unfold taskSeed carriedTasks
    rw [hprior]
  · intro hnone
    rw [hfil]
    unfold taskSeed carriedTasks
    rw [hnone]

/-- Witness for C1: a prior note with one incomplete task and one expected
line seeds the next note's Tasks section with exactly those two lines. -/
theorem create_daily_note_carry_over_witness :
    ∃ note,
      createDailyNote "proj".toList "2024-01-02".toList
          (some [("2024-01-01.md".toList,
            "## Tasks\n- [ ] alpha\n\n## Expected for Tomorrow\n- beta\n".toList)]) =
        (true, some ([("2024-01-01.md".toList,
            "## Tasks\n- [ ] alpha\n\n## Expected for Tomorrow\n- beta\n".toList)] ++
          [("2024-01-02".toList ++ ".md".toList, note)])) ∧
      (regionAfter "## Tasks".toList (splitNl note)).filter
          (fun l => !l.isEmpty) =
        ["- [ ] alpha".toList, "- beta".toList] := by
  obtain ⟨note, h1, h2, h3, h4⟩ :=
    create_daily_note_carry_over "proj".toList "2024-01-02".toList
      [("2024-01-01.md".toList,
        "## Tasks\n- [ ] alpha\n\n## Expected for Tomorrow\n- beta\n".toList)]
      (by decide) (by decide) (by decide) (by decide) (by decide)
  refine ⟨note, h1, ?_⟩
  rw [h2 "## Tasks\n- [ ] alpha\n\n## Expected for Tomorrow\n- beta\n".toList
    (by decide)]
  decide

/-- C4: `createProject` succeeds exactly once.  On a project that does not
exist it returns `true` and creates the directory containing a `README.md`
and the initial daily note; on an existing project it returns `false` and
performs no filesystem mutation.  (The date is never the string `README`,
being of the form `YYYY-MM-DD`.) -/
theorem create_project_once (p today : Str) (htd : today ≠ "README".toList) :
    createProject p today none =
      (true, some [("README.md".toList, readmeContent p today),
        (today ++ ".md".toList,
          render today p get_template_tasks expectedPlaceholder)]) ∧
    ∀ files, createProject p today (some files) = (false, some files) := by
  constructor
  · have hnew : hasFile [("README.md".toList, readmeContent p today)]
        (today ++ ".md".toList) = false := by
      unfold hasFile
      simp only [List.any_cons, List.any_nil, Bool.or_false]
      rw [beq_eq_false_iff_ne]
      intro h
      apply htd
      have h2 : today ++ ".md".toList = "README".toList ++ ".md".toList := by
        rw [← h]
        decide
      exact List.append_cancel_right h2
    have hcd := createDailyNote_write p today
      [("README.md".toList, readmeContent p today)] hnew
    unfold createProject
    dsimp only
    rw [hcd]
    rfl
  · intro files
    rfl

/-- Witness for C4: creating a fresh project `demo`, then calling again. -/
theorem create_project_once_witness :
    createProject "demo".toList "2024-01-02".toList none =
      (true, some [("README.md".toList,
          readmeContent "demo".toList "2024-01-02".toList),
        ("2024-01-02".toList ++ ".md".toList,
          render "2024-01-02".toList "demo".toList get_template_tasks
            expectedPlaceholder)]) ∧
    createProject "demo".toList "2024-01-02".toList
        (createProject "demo".toList "2024-01-02".toList none).2 =
      (false, (createProject "demo".toList "2024-01-02".toList none).2) := by
  obtain ⟨h1, h2⟩ := create_project_once "demo".toList "2024-01-02".toList
    (by decide)
  exact ⟨h1, by rw [h1]; exact h2 _⟩

/-- C7: every note written by `createDailyNote` has an Expected-for-Tomorrow
section consisting of exactly the static line `- No expected tasks`
(followed by the template's blank separator line), regardless of the prior
note's contents: expected lines of the prior note are carried only into the
new Tasks section, never into the new Expected section. -/
theorem expected_section_static (p today : Str) (files : List (Str × Str))
    (hpn : '\n' ∉ p) (htn : '\n' ∉ today)
    (hnew : hasFile files (today ++ ".md".toList) = false) :
    ∃ note,
      createDailyNote p today (some files) =
        (true, some (files ++ [(today ++ ".md".toList, note)])) ∧
      regionAfterLine "## Expected for Tomorrow".toList (splitNl note) =
        [expectedPlaceholder, []] ∧
      (regionAfterLine "## Expected for Tomorrow".toList (splitNl note)).filter
        (fun l => !l.isEmpty) = [expectedPlaceholder] := by
  refine ⟨_, createDailyNote_write p today files hnew, ?_, ?_⟩
  · exact expectedRegion_render today p files htn hpn
  · rw [expectedRegion_render today p files htn hpn]
    decide

/-- Witness for C7: the note created over a prior note full of expected lines
still has the static Expected section. -/
theorem expected_section_static_witness :
    ∃ note,
      createDailyNote "proj".toList "2024-01-02".toList
          (some [("2024-01-01.md".toList,
            "## Expected for Tomorrow\n- x\n- y\n".toList)]) =
        (true, some ([("2024-01-01.md".toList,
            "## Expected for Tomorrow\n- x\n- y\n".toList)] ++
          [("2024-01-02".toList ++ ".md".toList, note)])) ∧
      regionAfterLine "## Expected for Tomorrow".toList (splitNl note) =
        [expectedPlaceholder, []] := by
  obtain ⟨note, h1, h2, h3⟩ := expected_section_static "proj".toList
    "2024-01-02".toList
    [("2024-01-01.md".toList, "## Expected for Tomorrow\n- x\n- y\n".toList)]
    (by decide) (by decide) (by decide)
  exact ⟨note, h1, h2⟩

/-- C9: the static placeholder `- No expected tasks` itself starts with `-`,
so on a note created with no carried tasks `get_expected_tasks` returns
exactly that line (and `get_incomplete_tasks` returns nothing), and when such
a note is the most recent prior note the next `createDailyNote` carries the
literal line `- No expected tasks` into the new note's Tasks section: the
carried count is 1, not 0. -/
theorem placeholder_carried_next_day (p today : Str)
    (hpn : '\n' ∉ p) (hph : '#' ∉ p) (htn : '\n' ∉ today) (hth : '#' ∉ today) :
    isPrefixS "-".toList expectedPlaceholder = true ∧
    get_expected_tasks (render today p get_template_tasks expectedPlaceholder) =
      [expectedPlaceholder] ∧
    get_incomplete_tasks (render today p get_template_tasks expectedPlaceholder) =
      [] ∧
    (∀ files, findLastNote files =
        some (render today p get_template_tasks expectedPlaceholder) →
      carriedTasks files = [expectedPlaceholder]) ∧
    (∀ p2 t2 files, '\n' ∉ p2 → '#' ∉ p2 → '\n' ∉ t2 → '#' ∉ t2 →
      findLastNote files =
        some (render today p get_template_tasks expectedPlaceholder) →
      hasFile files (t2 ++ ".md".toList) = false →
      ∃ note, createDailyNote p2 t2 (some files) =
          (true, some (files ++ [(t2 ++ ".md".toList, note)])) ∧
        (regionAfter "## Tasks".toList (splitNl note)).filter
          (fun l => !l.isEmpty) = [expectedPlaceholder]) := by
  have hexp := get_expected_fresh today p htn hth hpn hph
  have hinc := get_incomplete_fresh today p htn hth hpn hph
  have hcar : ∀ files, findLastNote files =
      some (render today p get_template_tasks expectedPlaceholder) →
      carriedTasks files = [expectedPlaceholder] := by
    intro files hf
    unfold carriedTasks
    rw [hf]
    dsimp only
    rw [hinc, hexp]
    rfl
  refine ⟨by decide, hexp, hinc, hcar, ?_⟩
  intro p2 t2 files hp2n hp2h ht2n ht2h hf hnew
  refine ⟨_, createDailyNote_write p2 t2 files hnew, ?_⟩
  rw [tasksRegion_render t2 p2 expectedPlaceholder files ht2n hp2n ht2h hp2h,
    filter_taskSeed]
  unfold taskSeed
  rw [hcar files hf]

/-- Witness for C9: after a fresh note with no carried tasks, the next day's
note carries exactly the placeholder line. -/
theorem placeholder_carried_next_day_witness :
    ∃ note,
      createDailyNote "proj".toList "2024-01-03".toList
          (some [("2024-01-02.md".toList,
            render "2024-01-02".toList "proj".toList get_template_tasks
              expectedPlaceholder)]) =
        (true, some ([("2024-01-02.md".toList,
            render "2024-01-02".toList "proj".toList get_template_tasks
              expectedPlaceholder)] ++
          [("2024-01-03".toList ++ ".md".toList, note)])) ∧
      (regionAfter "## Tasks".toList (splitNl note)).filter
        (fun l => !l.isEmpty) = [expectedPlaceholder] := by
  obtain ⟨h0, h1, h2, h3, h4⟩ := placeholder_carried_next_day "proj".toList
    "2024-01-02".toList (by decide) (by decide) (by decide) (by decide)
  exact h4 "proj".toList "2024-01-03".toList _ (by decide) (by decide)
    (by decide) (by decide) (by decide) (by decide)
